import Mathlib

/-!
Shallow embedding of `src/main.py`, a small CLI utility computing Fibonacci
sequences and primes and echoing CI environment variables.

Python integers are arbitrary precision, so they are modelled as `Int`
(with `Nat` for loop counters that are provably non-negative).  A Python
function that can raise becomes `Except String`, carrying the exception
message.  Printing to stdout is modelled as the list of printed lines.
-/

/-! ### Sequence Generator (`fibonacci`, main.py lines 30-47) -/

/-- One iteration of the `for` body: `seq.append(seq[-1] + seq[-2])`.
Python's negative indices `seq[-1]`, `seq[-2]` are positions
`len-1`, `len-2`. -/
def fibStep (seq : List Int) : List Int :=
  seq ++ [seq.getD (seq.length - 1) 0 + seq.getD (seq.length - 2) 0]

/-- The loop `for _ in range(2, n): seq.append(...)`, run `k` times. -/
def fibLoop : Nat → List Int → List Int
  | 0, seq => seq
  | k + 1, seq => fibLoop k (fibStep seq)

/-- Embedding of `fibonacci(n)`: first `n` Fibonacci numbers; raises
`ValueError("n must be non-negative")` on negative input.
For `n ≥ 2` the loop runs `n - 2` times starting from `[0, 1]`. -/
def fibonacci (n : Int) : Except String (List Int) :=
  if n < 0 then .error "n must be non-negative"
  else if n = 0 then .ok []
  else if n = 1 then .ok [0]
  else .ok (fibLoop (n.toNat - 2) [0, 1])

/-! ### Prime Checker (`is_prime`, main.py lines 50-66) -/

/-- The `while i * i <= x` trial-division loop of `is_prime`, with the
candidate divisor `i` increasing by 6 each iteration.  `x > 3` holds at
every call site, so `x` is carried as a `Nat`. -/
def isPrimeLoop (x : Nat) (i : Nat) : Bool :=
  if i * i ≤ x then
    if x % i = 0 ∨ x % (i + 2) = 0 then false
    else isPrimeLoop x (i + 6)
  else true
termination_by x + 1 - i
decreasing_by
  rename_i h _
  have hii : i ≤ i * i := by
    rcases Nat.eq_zero_or_pos i with h0 | h0
    · simp [h0]
    · exact Nat.le_mul_of_pos_left i h0
  omega

/-- Embedding of `is_prime(x)`: trial division after rejecting `x ≤ 1`,
accepting `x ≤ 3`, and rejecting multiples of 2 and 3. -/
def is_prime (x : Int) : Bool :=
  if x ≤ 1 then false
  else if x ≤ 3 then true
  else if x % 2 = 0 ∨ x % 3 = 0 then false
  else isPrimeLoop x.toNat 5

/-! ### Prime Enumerator (`primes_up_to`, main.py lines 69-75) -/

/-- Embedding of `primes_up_to(n)`:
`[x for x in range(2, n + 1) if is_prime(x)]`; `range(2, n + 1)` for
`n ≥ 2` is the `n - 1` integers `2, …, n`. -/
def primes_up_to (n : Int) : List Int :=
  if n < 2 then []
  else ((List.range' 2 (n.toNat - 1)).map Int.ofNat).filter
    (fun x => is_prime x)

/-- Step-indexed version of `isPrimeLoop`: runs at most `fuel` iterations,
returning `true` if the guard `i * i ≤ x` has not yet failed when the fuel
runs out.  Used to express that the `while` loop performs a bounded number
of iterations, and for kernel evaluation at concrete inputs. -/
def isPrimeLoopFuel : Nat → Nat → Nat → Bool
  | 0, _, _ => true
  | fuel + 1, x, i =>
    if i * i ≤ x then
      if x % i = 0 ∨ x % (i + 2) = 0 then false
      else isPrimeLoopFuel fuel x (i + 6)
    else true

/-- Variant of `is_prime` with the loop replaced by its fuel-indexed
version (enough fuel is always given; see `isPrimeLoop_eq_fuel`). -/
def is_primeF (x : Int) : Bool :=
  if x ≤ 1 then false
  else if x ≤ 3 then true
  else if x % 2 = 0 ∨ x % 3 = 0 then false
  else isPrimeLoopFuel (x.toNat + 1) x.toNat 5

/-- Variant of `primes_up_to` with the computable checker, for concrete
evaluation. -/
def primes_up_toF (n : Int) : List Int :=
  if n < 2 then []
  else ((List.range' 2 (n.toNat - 1)).map Int.ofNat).filter
    (fun x => is_primeF x)

/-! ### Spec-side naive trial division (§4.2, §8 of the spec)

The spec requires `is_prime` to "produce identical accept/reject results
to naive trial division for every input".  `trial_division` is that
reference algorithm, written from the spec's words: an integer `x > 1` is
accepted iff no integer in `2 … x - 1` divides it. -/

def trial_division (x : Int) : Bool :=
  if x ≤ 1 then false
  else (List.range' 2 (x.toNat - 2)).all (fun d => x.toNat % d ≠ 0)

/-! ### Command dispatcher (`main` and the `__main__` block,
main.py lines 102-141) -/

/-- Process environment: a partial map from variable names to values. -/
def EnvMap := String → Option String

/-- The parsed-argument namespace produced by `parse_args`: a task
selector and the `--n` value (meaningful for `fib` and `primes`). -/
structure CliArgs where
  task : String
  n : Int

/-- Python's `str` of a list of ints, as printed by `print(seq)`:
`[0, 1, 1, 2, 3]`. -/
def pyListRepr (l : List Int) : String :=
  "[" ++ String.intercalate ", " (l.map toString) ++ "]"

/-- The six CI variables of the `env` task, in declared order
(main.py lines 120-127). -/
def vars_to_show : List String :=
  ["JENKINS_URL", "JOB_NAME", "BUILD_NUMBER", "GIT_URL", "BRANCH_NAME",
   "SONAR_HOST_URL"]

/-- Embedding of `main(argv)` after argument parsing: returns the exit
status and the lines printed to stdout, or the message of an uncaught
exception.  The unknown-task branch logs to stderr and returns 2. -/
def mainTasks (os : EnvMap) (args : CliArgs) :
    Except String (Int × List String) :=
  if args.task = "fib" then do
    let seq ← fibonacci args.n
    .ok (0, [pyListRepr seq])
  else if args.task = "primes" then
    .ok (0, [pyListRepr (primes_up_to args.n)])
  else if args.task = "env" then
    .ok (0, vars_to_show.map (fun k => k ++ "=" ++ (os k).getD ""))
  else
    .ok (2, [])

/-- The `if __name__ == "__main__"` block: `sys.exit(main(...))` inside
`try`, with `except Exception` logging and exiting with status 1.  The
result is the process exit status and the stdout lines. -/
def mainEntry (os : EnvMap) (args : CliArgs) : Int × List String :=
  match mainTasks os args with
  | .ok r => r
  | .error _ => (1, [])

/-! ### Lemmas about the Fibonacci loop -/

/-- Negative input takes the first branch of `fibonacci`. -/
theorem fibonacci_neg (n : Int) (h : n < 0) :
    fibonacci n = Except.error "n must be non-negative" := by
  unfold fibonacci
  rw [if_pos h]

/-- The Fibonacci recurrence, stated over `getD` with default `0`. -/
def FibRec (l : List Int) : Prop :=
  ∀ i, i + 2 < l.length → l.getD (i + 2) 0 = l.getD (i + 1) 0 + l.getD i 0

theorem fibStep_length (seq : List Int) :
    (fibStep seq).length = seq.length + 1 := by
  simp [fibStep]

theorem fibLoop_length (k : Nat) (seq : List Int) :
    (fibLoop k seq).length = seq.length + k := by
  induction k generalizing seq with
  | zero => rfl
  | succ k ih =>
    rw [fibLoop, ih, fibStep_length]
    omega

theorem fibLoop_append (k : Nat) (seq : List Int) :
    ∃ t, fibLoop k seq = seq ++ t := by
  induction k generalizing seq with
  | zero => exact ⟨[], by simp [fibLoop]⟩
  | succ k ih =>
    obtain ⟨t, ht⟩ := ih (fibStep seq)
    exact ⟨_, by rw [fibLoop, ht, fibStep, List.append_assoc]⟩

theorem fibStep_fibRec (seq : List Int) (h2 : 2 ≤ seq.length)
    (hr : FibRec seq) : FibRec (fibStep seq) := by
  intro i hi
  rw [fibStep_length] at hi
  rcases Nat.lt_or_ge (i + 2) seq.length with hlt | hge
  · rw [fibStep, List.getD_append _ _ _ _ hlt,
      List.getD_append _ _ _ _ (by omega), List.getD_append _ _ _ _ (by omega)]
    exact hr i hlt
  · have hieq : i + 2 = seq.length := by omega
    rw [fibStep, List.getD_append_right _ _ _ _ (by omega),
      List.getD_append _ _ _ _ (by omega), List.getD_append _ _ _ _ (by omega)]
    have h0 : i + 2 - seq.length = 0 := by omega
    have h1 : seq.length - 1 = i + 1 := by omega
    have h2' : seq.length - 2 = i := by omega
    rw [h0, h1, h2']
    rfl

theorem fibLoop_fibRec (k : Nat) (seq : List Int) (h2 : 2 ≤ seq.length)
    (hr : FibRec seq) : FibRec (fibLoop k seq) := by
  induction k generalizing seq with
  | zero => exact hr
  | succ k ih =>
    rw [fibLoop]
    exact ih (fibStep seq) (by rw [fibStep_length]; omega)
      (fibStep_fibRec seq h2 hr)

theorem getD_nonneg (l : List Int) (h : ∀ y ∈ l, 0 ≤ y) (k : Nat) :
    0 ≤ l.getD k 0 := by
  rcases hk : l[k]? with _ | y
  · simp [List.getD, hk]
  · have : l.getD k 0 = y := by simp [List.getD, hk]
    rw [this]
    exact h y (List.getElem?_mem hk)

theorem fibLoop_nonneg (k : Nat) (seq : List Int)
    (h : ∀ y ∈ seq, 0 ≤ y) : ∀ y ∈ fibLoop k seq, 0 ≤ y := by
  induction k generalizing seq with
  | zero => exact h
  | succ k ih =>
    rw [fibLoop]
    refine ih (fibStep seq) ?_
    intro y hy
    rw [fibStep] at hy
    rcases List.mem_append.mp hy with hy | hy
    · exact h y hy
    · rcases List.mem_singleton.mp hy with rfl
      exact add_nonneg (getD_nonneg seq h _) (getD_nonneg seq h _)


/-! ### Lemmas about the trial-division loop -/

/-- If the loop starting at `i ≡ 5 (mod 6)` reports `true`, then no
candidate of residue `1` or `5` mod `6` at or above `i` whose square is
at most `n` divides `n`.  The loop tests exactly `i` and `i + 2` each
round, which are the two such residues in `[i, i + 6)`. -/
theorem isPrimeLoop_true_not_dvd (n i : Nat) (h5 : i % 6 = 5)
    (ht : isPrimeLoop n i = true) (d : Nat) (hid : i ≤ d) (hdd : d * d ≤ n)
    (hd6 : d % 6 = 1 ∨ d % 6 = 5) : ¬ d ∣ n := by
  intro hdvd
  by_cases hg : i * i ≤ n
  · rw [isPrimeLoop, if_pos hg] at ht
    by_cases hdiv : n % i = 0 ∨ n % (i + 2) = 0
    · rw [if_pos hdiv] at ht
      simp at ht
    · rw [if_neg hdiv] at ht
      by_cases hlt : d < i + 6
      · have hd : d = i ∨ d = i + 2 := by omega
        rcases hd with rfl | rfl
        · exact hdiv (Or.inl (by omega))
        · exact hdiv (Or.inr (by omega))
      · exact isPrimeLoop_true_not_dvd n (i + 6) (by omega) ht d (by omega)
          hdd hd6 hdvd
  · have hsq : i * i ≤ d * d := Nat.mul_le_mul hid hid
    omega
termination_by n + 1 - i
decreasing_by
  have hii : i ≤ i * i := Nat.le_mul_of_pos_left i (by omega)
  omega

/-- If `n` is prime, the loop never finds a divisor, so it reports
`true` from any start `i ≥ 5`. -/
theorem isPrimeLoop_prime_true (n i : Nat) (hp : Nat.Prime n)
    (h5 : 5 ≤ i) : isPrimeLoop n i = true := by
  by_cases hg : i * i ≤ n
  · have h2i : i * 2 ≤ n := le_trans (Nat.mul_le_mul (le_refl i) (by omega)) hg
    have h5i : i * 5 ≤ n := le_trans (Nat.mul_le_mul (le_refl i) h5) hg
    have hni : ¬ (n % i = 0 ∨ n % (i + 2) = 0) := by
      rintro (h0 | h0)
      · have hdvd : i ∣ n := Nat.dvd_of_mod_eq_zero h0
        rcases hp.eq_one_or_self_of_dvd i hdvd with h | h <;> omega
      · have hdvd : i + 2 ∣ n := Nat.dvd_of_mod_eq_zero h0
        rcases hp.eq_one_or_self_of_dvd (i + 2) hdvd with h | h <;> omega
    rw [isPrimeLoop, if_pos hg, if_neg hni]
    exact isPrimeLoop_prime_true n (i + 6) hp (by omega)
  · rw [isPrimeLoop, if_neg hg]
termination_by n + 1 - i
decreasing_by
  omega

/-- `fuel` iterations suffice as soon as `x < i + 6 * fuel`: the
candidate grows by `6` each round, so the guard `i * i ≤ x` must fail
before the fuel runs out. -/
theorem isPrimeLoop_eq_fuel : ∀ (fuel x i : Nat), x < i + 6 * fuel →
    isPrimeLoopFuel fuel x i = isPrimeLoop x i
  | 0, x, i, h => by
    have hg : ¬ i * i ≤ x := by
      intro hg
      have hii : i ≤ i * i := Nat.le_mul_of_pos_left i (by omega)
      omega
    rw [isPrimeLoopFuel, isPrimeLoop, if_neg hg]
  | fuel + 1, x, i, h => by
    rw [isPrimeLoopFuel, isPrimeLoop]
    by_cases hg : i * i ≤ x
    · rw [if_pos hg, if_pos hg]
      by_cases hdiv : x % i = 0 ∨ x % (i + 2) = 0
      · rw [if_pos hdiv, if_pos hdiv]
      · rw [if_neg hdiv, if_neg hdiv]
        exact isPrimeLoop_eq_fuel fuel x (i + 6) (by omega)
    · rw [if_neg hg, if_neg hg]

/-- The two checkers agree: the recursion depth of the `while` loop is
bounded by `x.toNat + 1`. -/
theorem is_prime_eq_fuel (x : Int) : is_prime x = is_primeF x := by
  unfold is_prime is_primeF
  split_ifs with h1 h2 h3 <;> try rfl
  exact (isPrimeLoop_eq_fuel (x.toNat + 1) x.toNat 5 (by omega)).symm

theorem primes_up_to_eq_fuel (n : Int) : primes_up_to n = primes_up_toF n := by
  unfold primes_up_to primes_up_toF
  simp only [is_prime_eq_fuel]

/-! ### Correctness of the checkers against mathematical primality -/

/-- The spec-side naive checker accepts exactly the primes
(`Prime` on `ℤ`, restricted to `x > 1`). -/
theorem trial_division_iff (x : Int) :
    trial_division x = true ↔ 1 < x ∧ Prime x := by
  unfold trial_division
  by_cases h1 : x ≤ 1
  · rw [if_pos h1]
    simp only [Bool.false_eq_true, false_iff]
    rintro ⟨h, -⟩
    omega
  · rw [if_neg h1]
    push_neg at h1
    set n := x.toNat with hn
    have hbridge : Prime x ↔ Nat.Prime n := by
      rw [show x = (n : Int) by omega, Int.prime_iff_natAbs_prime,
        Int.natAbs_ofNat]
    rw [List.all_eq_true]
    constructor
    · intro hall
      refine ⟨h1, hbridge.mpr ?_⟩
      rw [Nat.prime_def_lt']
      refine ⟨by omega, fun m hm2 hmn hdvd => ?_⟩
      have hmem : m ∈ List.range' 2 (n - 2) := by
        rw [List.mem_range'_1]
        omega
      have hm := hall m hmem
      simp only [decide_eq_true_eq] at hm
      exact hm (by omega)
    · rintro ⟨-, hp⟩ d hd
      rw [List.mem_range'_1] at hd
      rw [hbridge, Nat.prime_def_lt'] at hp
      simp only [decide_eq_true_eq]
      intro h0
      exact hp.2 d hd.1 (by omega) (Nat.dvd_of_mod_eq_zero h0)

/-- The optimized checker accepts exactly the primes: the 6k±1 loop is
complete because any composite `n` coprime to `2` and `3` has a prime
factor `p` with `p * p ≤ n`, `p ≥ 5`, `p ≡ ±1 (mod 6)`. -/
theorem is_prime_iff (x : Int) : is_prime x = true ↔ 1 < x ∧ Prime x := by
  unfold is_prime
  by_cases h1 : x ≤ 1
  · rw [if_pos h1]
    simp only [Bool.false_eq_true, false_iff]
    rintro ⟨h, -⟩
    omega
  · rw [if_neg h1]
    push_neg at h1
    set n := x.toNat with hn
    have hbridge : Prime x ↔ Nat.Prime n := by
      rw [show x = (n : Int) by omega, Int.prime_iff_natAbs_prime,
        Int.natAbs_ofNat]
    by_cases h3 : x ≤ 3
    · rw [if_pos h3]
      simp only [eq_self_iff_true, true_iff]
      refine ⟨h1, hbridge.mpr ?_⟩
      have hc : n = 2 ∨ n = 3 := by omega
      rcases hc with hc | hc
      · rw [hc]
        exact Nat.prime_two
      · rw [hc]
        exact Nat.prime_three
    · rw [if_neg h3]
      push_neg at h3
      by_cases hdv : x % 2 = 0 ∨ x % 3 = 0
      · rw [if_pos hdv]
        simp only [Bool.false_eq_true, false_iff]
        rintro ⟨-, hp⟩
        rw [hbridge] at hp
        rcases hdv with h0 | h0
        · have h2 : (2 : Nat) ∣ n := by omega
          rcases hp.eq_one_or_self_of_dvd 2 h2 with h | h <;> omega
        · have h2 : (3 : Nat) ∣ n := by omega
          rcases hp.eq_one_or_self_of_dvd 3 h2 with h | h <;> omega
      · rw [if_neg hdv]
        push_neg at hdv
        have hn2 : n % 2 ≠ 0 := by omega
        have hn3 : n % 3 ≠ 0 := by omega
        constructor
        · intro ht
          refine ⟨h1, hbridge.mpr ?_⟩
          by_contra hnp
          have hpf := Nat.minFac_prime (show n ≠ 1 by omega)
          have hdvd := Nat.minFac_dvd n
          have hsq : n.minFac ^ 2 ≤ n := Nat.minFac_sq_le_self (by omega) hnp
          rw [pow_two] at hsq
          set p := n.minFac
          have hp2 : p ≠ 2 := by
            rintro h
            rw [h] at hdvd
            omega
          have hp3 : p ≠ 3 := by
            rintro h
            rw [h] at hdvd
            omega
          have hpge : 2 ≤ p := hpf.two_le
          have hm2 : p % 2 ≠ 0 := by
            intro h0
            have h2 : (2 : Nat) ∣ p := by omega
            rcases hpf.eq_one_or_self_of_dvd 2 h2 with h | h <;> omega
          have hm3 : p % 3 ≠ 0 := by
            intro h0
            have h2 : (3 : Nat) ∣ p := by omega
            rcases hpf.eq_one_or_self_of_dvd 3 h2 with h | h <;> omega
          exact isPrimeLoop_true_not_dvd n 5 (by norm_num) ht p (by omega)
            hsq (by omega) hdvd
        · rintro ⟨-, hp⟩
          rw [hbridge] at hp
          exact isPrimeLoop_prime_true n 5 hp (le_refl 5)

/-! ### Lemmas about the enumerator -/

theorem range'_pairwise_lt (s n : Nat) :
    (List.range' s n).Pairwise (· < ·) := by
  induction n generalizing s with
  | zero => exact List.Pairwise.nil
  | succ n ih =>
    rw [List.range'_succ]
    refine List.Pairwise.cons ?_ (ih (s + 1))
    intro b hb
    rw [List.mem_range'_1] at hb
    omega

theorem primes_up_to_mem (n x : Int) :
    x ∈ primes_up_to n ↔ 2 ≤ x ∧ x ≤ n ∧ is_prime x = true := by
  unfold primes_up_to
  by_cases h2 : n < 2
  · rw [if_pos h2]
    simp only [List.not_mem_nil, false_iff]
    rintro ⟨ha, hb, -⟩
    omega
  · rw [if_neg h2]
    push_neg at h2
    simp only [List.mem_filter, List.mem_map, List.mem_range'_1,
      Int.ofNat_eq_coe]
    constructor
    · rintro ⟨⟨m, hm, rfl⟩, hp⟩
      exact ⟨by omega, by omega, hp⟩
    · rintro ⟨ha, hb, hp⟩
      exact ⟨⟨x.toNat, by omega, by omega⟩, hp⟩

theorem primes_up_to_pairwise (n : Int) :
    (primes_up_to n).Pairwise (· < ·) := by
  unfold primes_up_to
  by_cases h2 : n < 2
  · rw [if_pos h2]
    exact List.Pairwise.nil
  · rw [if_neg h2]
    refine List.Pairwise.filter _ ?_
    rw [List.pairwise_map]
    refine (range'_pairwise_lt 2 _).imp ?_
    intro a b hab
    exact Int.ofNat_lt.mpr hab

/-! ### Claim theorems -/

/-- C1: for every integer `N ≥ 2`, `fibonacci` returns a list of length
exactly `N` whose first element is `0`, second is `1`, and every element
at index `i ≥ 2` is the sum of the two preceding ones; for `N = 0` it
returns `[]` and for `N = 1` it returns `[0]`. -/
theorem fibonacci_first_n (n : Int) (h : 0 ≤ n) :
    ∃ l, fibonacci n = .ok l ∧ l.length = n.toNat ∧
      (n = 0 → l = []) ∧ (n = 1 → l = [0]) ∧
      (2 ≤ n → l.getD 0 0 = 0 ∧ l.getD 1 0 = 1) ∧
      (∀ i, i + 2 < l.length →
        l.getD (i + 2) 0 = l.getD (i + 1) 0 + l.getD i 0) := by
  by_cases h0 : n = 0
  · refine ⟨[], ?_, ?_, fun _ => rfl, ?_, ?_, ?_⟩
    · rw [h0]
      rfl
    · rw [h0]
      rfl
    · intro h1
      omega
    · intro h2
      omega
    · intro i hi
      simp at hi
  · by_cases h1 : n = 1
    · refine ⟨[0], ?_, ?_, ?_, fun _ => rfl, ?_, ?_⟩
      · rw [h1]
        rfl
      · rw [h1]
        rfl
      · intro hc
        omega
      · intro h2
        omega
      · intro i hi
        simp at hi
    · have h2 : 2 ≤ n := by omega
      have hfib : fibonacci n = .ok (fibLoop (n.toNat - 2) [0, 1]) := by
        unfold fibonacci
        rw [if_neg (by omega), if_neg h0, if_neg h1]
      refine ⟨_, hfib, ?_, fun hc => by omega, fun hc => by omega, ?_, ?_⟩
      · rw [fibLoop_length]
        simp only [List.length_cons, List.length_nil]
        omega
      · intro _
        obtain ⟨t, ht⟩ := fibLoop_append (n.toNat - 2) [0, 1]
        rw [ht]
        constructor
        · rw [List.getD_append _ _ _ _ (by norm_num)]
          rfl
        · rw [List.getD_append _ _ _ _ (by norm_num)]
          rfl
      · exact fibLoop_fibRec _ _ (by norm_num) (fun i hi => by norm_num at hi)

/-- C1 witness at `N = 5`. -/
theorem fibonacci_first_n_witness :
    (0 : Int) ≤ 5 ∧
    (∃ l, fibonacci 5 = .ok l ∧ l.length = (5 : Int).toNat ∧
      ((5 : Int) = 0 → l = []) ∧ ((5 : Int) = 1 → l = [0]) ∧
      (2 ≤ (5 : Int) → l.getD 0 0 = 0 ∧ l.getD 1 0 = 1) ∧
      (∀ i, i + 2 < l.length →
        l.getD (i + 2) 0 = l.getD (i + 1) 0 + l.getD i 0)) :=
  ⟨by norm_num, fibonacci_first_n 5 (by norm_num)⟩

/-- C2: `is_prime` agrees with naive trial division on every integer, and
accepts exactly the integers greater than 1 that are prime; in particular
it rejects 0, 1 and every negative input. -/
theorem is_prime_matches_primality (x : Int) :
    is_prime x = trial_division x ∧
    (is_prime x = true ↔ 1 < x ∧ Prime x) ∧
    (x ≤ 1 → is_prime x = false) := by
  refine ⟨?_, is_prime_iff x, ?_⟩
  · have h1 := is_prime_iff x
    have h2 := trial_division_iff x
    cases hb : is_prime x
    · cases hc : trial_division x
      · rfl
      · rw [hb] at h1
        rw [hc] at h2
        exact absurd (h1.mpr (h2.mp rfl)) (by simp)
    · cases hc : trial_division x
      · rw [hb] at h1
        rw [hc] at h2
        exact absurd (h2.mpr (h1.mp rfl)) (by simp)
      · rfl
  · intro hx
    cases hb : is_prime x
    · rfl
    · obtain ⟨hgt, -⟩ := (is_prime_iff x).mp hb
      omega

/-- C2 witness at `X = 0`. -/
theorem is_prime_matches_primality_witness :
    is_prime 0 = trial_division 0 ∧ (0 : Int) ≤ 1 ∧ is_prime 0 = false :=
  ⟨(is_prime_matches_primality 0).1, by norm_num,
   (is_prime_matches_primality 0).2.2 (by norm_num)⟩

/-- C3: `primes_up_to n` is strictly ascending, contains exactly the
integers of `[2, n]` accepted by `is_prime` (hence is that filter of the
range, in order), and is empty for `n < 2`. -/
theorem primes_up_to_exact (n : Int) :
    (primes_up_to n).Pairwise (· < ·) ∧
    (∀ x : Int, x ∈ primes_up_to n ↔ 2 ≤ x ∧ x ≤ n ∧ is_prime x = true) ∧
    (n < 2 → primes_up_to n = []) := by
  refine ⟨primes_up_to_pairwise n, fun x => primes_up_to_mem n x, ?_⟩
  intro h2
  unfold primes_up_to
  rw [if_pos h2]

/-- C3 witness: membership instance at `N = 10` and the `N < 2` case. -/
theorem primes_up_to_exact_witness :
    (3 : Int) ∈ primes_up_to 10 ∧ (0 : Int) < 2 ∧ primes_up_to 0 = [] :=
  ⟨((primes_up_to_exact 10).2.1 3).mpr ⟨by norm_num, by norm_num, rfl⟩,
   by norm_num, (primes_up_to_exact 0).2.2 (by norm_num)⟩

/-- C4 counterexample: at the negative input `-3` the raised error
carries the message `"n must be non-negative"` (lowercase `n`, as written
in the source), not `"N must be non-negative"` as the claim states. -/
theorem fibonacci_error_message_cex :
    fibonacci (-3) = Except.error "n must be non-negative" ∧
    fibonacci (-3) ≠ Except.error "N must be non-negative" := by
  refine ⟨rfl, ?_⟩
  intro hc
  rw [show fibonacci (-3) = Except.error "n must be non-negative" from rfl]
    at hc
  injection hc with h1
  exact absurd h1 (by decide)

/-- C4 amended: for every integer `N < 0`, `fibonacci` fails with a
`ValueError` carrying the message `"n must be non-negative"` and returns
no sequence. -/
theorem fibonacci_negative_error (n : Int) (h : n < 0) :
    fibonacci n = Except.error "n must be non-negative" :=
  fibonacci_neg n h

/-- C4 witness at `N = -1`. -/
theorem fibonacci_negative_error_witness :
    (-1 : Int) < 0 ∧
    fibonacci (-1) = Except.error "n must be non-negative" :=
  ⟨by norm_num, fibonacci_negative_error (-1) (by norm_num)⟩

/-- C5: `fibonacci` never returns more than `N` elements and never a
negative number; `primes_up_to` only returns primes inside `[2, N]`. -/
theorem generator_invariants :
    (∀ (n : Int) (l : List Int), fibonacci n = .ok l →
      l.length ≤ n.toNat ∧ ∀ y ∈ l, 0 ≤ y) ∧
    (∀ n x : Int, x ∈ primes_up_to n → 2 ≤ x ∧ x ≤ n ∧ Prime x) := by
  constructor
  · intro n l hl
    unfold fibonacci at hl
    by_cases h1 : n < 0
    · rw [if_pos h1] at hl
      exact absurd hl (by simp)
    · rw [if_neg h1] at hl
      by_cases h2 : n = 0
      · rw [if_pos h2] at hl
        have hleq : l = [] := by
          injection hl with h
          exact h.symm
        subst hleq
        exact ⟨by simp, by simp⟩
      · rw [if_neg h2] at hl
        by_cases h3 : n = 1
        · rw [if_pos h3] at hl
          have hleq : l = [0] := by
            injection hl with h
            exact h.symm
          subst hleq
          refine ⟨?_, ?_⟩
          · simp only [List.length_cons, List.length_nil]
            omega
          · intro y hy
            simp at hy
            omega
        · rw [if_neg h3] at hl
          have hleq : l = fibLoop (n.toNat - 2) [0, 1] := by
            injection hl with h
            exact h.symm
          subst hleq
          refine ⟨?_, ?_⟩
          · rw [fibLoop_length]
            simp only [List.length_cons, List.length_nil]
            omega
          · refine fibLoop_nonneg _ _ ?_
            intro y hy
            simp at hy
            rcases hy with rfl | rfl <;> norm_num
  · intro n x hx
    rw [primes_up_to_mem] at hx
    obtain ⟨ha, hb, hp⟩ := hx
    exact ⟨ha, hb, ((is_prime_iff x).mp hp).2⟩

/-- C5 witness: the invariants at `fibonacci 5` and `5 ∈ primes_up_to 10`. -/
theorem generator_invariants_witness :
    (fibonacci 5 = Except.ok [0, 1, 1, 2, 3] ∧
      ([0, 1, 1, 2, 3] : List Int).length ≤ (5 : Int).toNat ∧
      ∀ y ∈ ([0, 1, 1, 2, 3] : List Int), 0 ≤ y) ∧
    ((5 : Int) ∈ primes_up_to 10 ∧
      2 ≤ (5 : Int) ∧ (5 : Int) ≤ 10 ∧ Prime (5 : Int)) := by
  have hfib : fibonacci 5 = Except.ok [0, 1, 1, 2, 3] := rfl
  have hmem : (5 : Int) ∈ primes_up_to 10 := by
    rw [primes_up_to_eq_fuel]
    decide
  exact ⟨⟨hfib, (generator_invariants.1 5 _ hfib).1,
      (generator_invariants.1 5 _ hfib).2⟩,
    ⟨hmem, generator_invariants.2 10 5 hmem⟩⟩

/-- C6: with task `fib` and negative `N`, the error is not caught in
`main` (it surfaces as the `Except.error` of the dispatch) but reaches
the top-level handler, which exits with status 1; nothing is printed. -/
theorem fib_negative_propagates_to_top (os : EnvMap) (n : Int)
    (h : n < 0) :
    mainTasks os { task := "fib", n := n } =
      Except.error "n must be non-negative" ∧
    mainEntry os { task := "fib", n := n } = (1, []) := by
  have htask : mainTasks os { task := "fib", n := n } =
      Except.error "n must be non-negative" := by
    unfold mainTasks
    rw [if_pos rfl]
    rw [show ({ task := "fib", n := n } : CliArgs).n = n from rfl,
      fibonacci_neg n h]
    rfl
  refine ⟨htask, ?_⟩
  unfold mainEntry
  rw [htask]

/-- C6 witness at `fib --n -3`. -/
theorem fib_negative_propagates_witness :
    (-3 : Int) < 0 ∧
    (mainTasks (fun _ => none) { task := "fib", n := -3 } =
        Except.error "n must be non-negative" ∧
      mainEntry (fun _ => none) { task := "fib", n := -3 } = (1, [])) :=
  ⟨by norm_num, fib_negative_propagates_to_top (fun _ => none) (-3)
    (by norm_num)⟩

/-- C7: the `env` task prints exactly the six `NAME=value` lines, one per
declared variable, in declared order, with `""` for unset variables, and
exits with status `0` — for every environment. -/
theorem env_task_prints_six_vars (os : EnvMap) (n : Int) :
    mainEntry os { task := "env", n := n } =
      (0, ["JENKINS_URL=" ++ (os "JENKINS_URL").getD "",
           "JOB_NAME=" ++ (os "JOB_NAME").getD "",
           "BUILD_NUMBER=" ++ (os "BUILD_NUMBER").getD "",
           "GIT_URL=" ++ (os "GIT_URL").getD "",
           "BRANCH_NAME=" ++ (os "BRANCH_NAME").getD "",
           "SONAR_HOST_URL=" ++ (os "SONAR_HOST_URL").getD ""]) ∧
    (mainEntry os { task := "env", n := n }).2.length = 6 ∧
    (mainEntry os { task := "env", n := n }).1 = 0 := by
  have h : mainEntry os { task := "env", n := n } =
      (0, ["JENKINS_URL=" ++ (os "JENKINS_URL").getD "",
           "JOB_NAME=" ++ (os "JOB_NAME").getD "",
           "BUILD_NUMBER=" ++ (os "BUILD_NUMBER").getD "",
           "GIT_URL=" ++ (os "GIT_URL").getD "",
           "BRANCH_NAME=" ++ (os "BRANCH_NAME").getD "",
           "SONAR_HOST_URL=" ++ (os "SONAR_HOST_URL").getD ""]) := by
    simp [mainEntry, mainTasks, vars_to_show]
  rw [h]
  exact ⟨rfl, rfl, rfl⟩

/-- C8: a task selector outside `{fib, primes, env}` (including the
missing selector, the empty string) makes the program log an error and
exit with status 2, printing nothing; 2 is distinct from the status 1
used for unhandled faults. -/
theorem unknown_task_status_two (os : EnvMap) (args : CliArgs)
    (h1 : args.task ≠ "fib") (h2 : args.task ≠ "primes")
    (h3 : args.task ≠ "env") :
    mainEntry os args = (2, []) ∧ (mainEntry os args).1 ≠ 1 := by
  have h : mainTasks os args = .ok (2, []) := by
    unfold mainTasks
    rw [if_neg h1, if_neg h2, if_neg h3]
  have he : mainEntry os args = (2, []) := by
    unfold mainEntry
    rw [h]
  rw [he]
  exact ⟨rfl, by norm_num⟩

/-- C8 witness: the empty (missing) task selector. -/
theorem unknown_task_status_two_witness :
    ("" ≠ "fib" ∧ "" ≠ "primes" ∧ "" ≠ "env") ∧
    (mainEntry (fun _ => none) { task := "", n := 0 } = (2, []) ∧
      (mainEntry (fun _ => none) { task := "", n := 0 }).1 ≠ 1) :=
  ⟨⟨by decide, by decide, by decide⟩,
   unknown_task_status_two (fun _ => none) { task := "", n := 0 }
     (by decide) (by decide) (by decide)⟩

/-- C9: the core functions are pure and deterministic — as Lean
functions, equal inputs give equal outputs — and the numeric tasks of the
dispatcher do not depend on the ambient environment state. -/
theorem core_functions_pure :
    (∀ n : Int, fibonacci n = fibonacci n) ∧
    (∀ x : Int, is_prime x = is_prime x) ∧
    (∀ n : Int, primes_up_to n = primes_up_to n) ∧
    (∀ (os1 os2 : EnvMap) (args : CliArgs),
      args.task = "fib" ∨ args.task = "primes" →
      mainTasks os1 args = mainTasks os2 args) := by
  refine ⟨fun _ => rfl, fun _ => rfl, fun _ => rfl, ?_⟩
  intro os1 os2 args htask
  unfold mainTasks
  rcases htask with h | h
  · simp only [if_pos h]
  · have hne : args.task ≠ "fib" := by
      rw [h]
      decide
    simp only [if_neg hne, if_pos h]

/-- C9 witness: `fib` dispatch under two different environments. -/
theorem core_functions_pure_witness :
    ((CliArgs.mk "fib" 4).task = "fib" ∨
      (CliArgs.mk "fib" 4).task = "primes") ∧
    mainTasks (fun _ => none) (CliArgs.mk "fib" 4) =
      mainTasks (fun k => some k) (CliArgs.mk "fib" 4) :=
  ⟨Or.inl rfl,
   core_functions_pure.2.2.2 (fun _ => none) (fun k => some k)
     (CliArgs.mk "fib" 4) (Or.inl rfl)⟩

/-- C10: the trial-division loop of `is_prime` terminates: starting from
candidate `i`, `x + 1` iterations always suffice (the step-indexed loop
with that much fuel computes the same answer), and for `x ≤ 3`, even `x`,
or `x` divisible by 3 the loop is never consulted at all. -/
theorem prime_loop_iterations_bounded :
    (∀ x i : Nat, isPrimeLoop x i = isPrimeLoopFuel (x + 1) x i) ∧
    (∀ x : Int, 3 < x → ¬ (x % 2 = 0 ∨ x % 3 = 0) →
      is_prime x = isPrimeLoopFuel (x.toNat + 1) x.toNat 5) ∧
    (∀ x : Int, x ≤ 3 ∨ x % 2 = 0 ∨ x % 3 = 0 →
      is_prime x = decide (1 < x ∧ x ≤ 3)) := by
  refine ⟨?_, ?_, ?_⟩
  · intro x i
    exact (isPrimeLoop_eq_fuel (x + 1) x i (by omega)).symm
  · intro x h3 hdv
    unfold is_prime
    rw [if_neg (by omega), if_neg (by omega), if_neg hdv]
    exact (isPrimeLoop_eq_fuel (x.toNat + 1) x.toNat 5 (by omega)).symm
  · intro x hc
    unfold is_prime
    by_cases h1 : x ≤ 1
    · rw [if_pos h1]
      have hnot : ¬ (1 < x ∧ x ≤ 3) := by omega
      simp [hnot]
    · rw [if_neg h1]
      by_cases h3 : x ≤ 3
      · rw [if_pos h3]
        have hyes : 1 < x ∧ x ≤ 3 := by omega
        simp [hyes]
      · rw [if_neg h3]
        have hdv : x % 2 = 0 ∨ x % 3 = 0 := by
          rcases hc with h | h
          · omega
          · exact h
        rw [if_pos hdv]
        have hnot : ¬ (1 < x ∧ x ≤ 3) := by omega
        simp [hnot]

/-- C10 witness: the loop of `is_prime 25` completes within the fuel
bound, and `is_prime 9` is decided without entering the loop. -/
theorem prime_loop_iterations_bounded_witness :
    ((3 : Int) < 25 ∧ ¬ ((25 : Int) % 2 = 0 ∨ (25 : Int) % 3 = 0) ∧
      is_prime 25 = isPrimeLoopFuel ((25 : Int).toNat + 1) (25 : Int).toNat 5) ∧
    (((9 : Int) ≤ 3 ∨ (9 : Int) % 2 = 0 ∨ (9 : Int) % 3 = 0) ∧
      is_prime 9 = decide (1 < (9 : Int) ∧ (9 : Int) ≤ 3)) :=
  ⟨⟨by norm_num, by decide,
    prime_loop_iterations_bounded.2.1 25 (by norm_num) (by decide)⟩,
   ⟨by decide, prime_loop_iterations_bounded.2.2 9 (by decide)⟩⟩
